import Mathlib

/- Shallow embedding of the test orchestration engine of src/autotest/src/server.ts
   (mcp-web-autotest). The individual browser actions (the Action Executor) are
   modelled as an oracle assigning to each invocation either success (`none`) or a
   thrown error message (`some msg`), indexed by the structural position of the
   invocation (phase, test, attempt, step). The orchestration control flow
   (runSteps, test_plan_run, test_suite_run, buildJUnit, escapeXml,
   sanitizeFilename, and the page-table state operations) is transcribed from
   the source. -/

namespace Autotest

/-- A step of a plan or test: a named action invocation. Its argument bag is
opaque to the orchestrator; per-action schema validation and the handler call
are folded into the invocation oracle. -/
structure Step where
  name : String
deriving DecidableEq

/-- Outcome of one handler invocation: `none` = completed, `some m` = threw
an error whose message is `m`. -/
abbrev Outcome := Option String

/-- Names of the tools registered in the `tools` table of server.ts; the
`handlers` table has exactly the same keys. -/
def toolNames : List String :=
  ["browser_open", "browser_close", "page_goto", "page_click", "page_type",
   "page_fill", "page_assert", "page_screenshot", "page_eval", "page_wait_for",
   "page_title_get", "page_url_get", "page_text_get", "page_attribute_get",
   "page_viewport", "page_new", "page_switch", "page_close", "tracing_start",
   "tracing_stop", "test_plan_run", "test_plan_run_file", "test_suite_run"]

/-- Whether a step name resolves in the tools/handlers tables. -/
def knownTool (n : String) : Bool := toolNames.contains n

/-- One entry pushed by `runSteps` (inside test_suite_run) into a phase log:
`{name, ok: true}` on success, `{name, ok: false, message}` on failure. -/
structure StepResult where
  name : String
  ok : Bool
  message : Option String
deriving DecidableEq

/-- The `runSteps` helper of `test_suite_run` (server.ts lines 447-461): run the
steps in order; an unknown tool name throws "未知工具"; otherwise the invocation
oracle decides; on failure the error is recorded and, unless
`input.continueOnError` holds, rethrown (aborting the remaining steps).
Returns the pushed log together with the propagated error, if any.
The oracle is consumed positionally; the recursive call shifts it. -/
def runStepsGo (coe : Bool) (o : Nat → Outcome) : List Step → List StepResult × Option String
  | [] => ([], none)
  | s :: rest =>
    match (if knownTool s.name then o 0 else some "未知工具") with
    | none =>
      let r := runStepsGo coe (fun j => o (j + 1)) rest
      (⟨s.name, true, none⟩ :: r.1, r.2)
    | some m =>
      if coe then
        let r := runStepsGo coe (fun j => o (j + 1)) rest
        (⟨s.name, false, some m⟩ :: r.1, r.2)
      else ([⟨s.name, false, some m⟩], some m)

/-- Every step of the list is a known tool and its invocation succeeds. -/
def allStepsCleanB (o : Nat → Outcome) : List Step → Bool
  | [] => true
  | s :: rest => knownTool s.name && (o 0).isNone && allStepsCleanB (fun j => o (j + 1)) rest

/-- One entry of the result log of `test_plan_run` (server.ts lines 523-543):
`{step: i+1, name, ok, message}`. -/
structure PlanEntry where
  step : Nat
  name : String
  ok : Bool
  message : String
deriving DecidableEq

/-- The loop body of `test_plan_run`: for each step, an unknown tool records
`{ok:false, message:"未知工具"}` and breaks unless continueOnError; a known tool
is invoked (oracle at the step's position), recording `"ok"` on success or the
error message on failure, breaking on failure unless continueOnError. -/
def modelPlanGo (coe : Bool) (o : Nat → Outcome) : List Step → Nat → List PlanEntry
  | [], _ => []
  | s :: rest, i =>
    if knownTool s.name = false then
      ⟨i + 1, s.name, false, "未知工具"⟩ :: (if coe then modelPlanGo coe o rest (i + 1) else [])
    else
      match o i with
      | none => ⟨i + 1, s.name, true, "ok"⟩ :: modelPlanGo coe o rest (i + 1)
      | some m => ⟨i + 1, s.name, false, m⟩ :: (if coe then modelPlanGo coe o rest (i + 1) else [])

/-- The handler `test_plan_run`: run all steps from index 0 and return the
result log. -/
def modelPlanRun (steps : List Step) (coe : Bool) (o : Nat → Outcome) : List PlanEntry :=
  modelPlanGo coe o steps 0

/-- The list `[s, s+1, ..., s+n-1]`. -/
def upFrom (s : Nat) : Nat → List Nat
  | 0 => []
  | n + 1 => s :: upFrom (s + 1) n

/-- Per-character transcription of `escapeXml` (server.ts lines 593-595): the
chained global replaces hit the five reserved characters of the original
string (the ampersand substitution runs first, and no later replacement target
occurs in an inserted entity), so the chain acts as this character map. -/
def escapeChar (c : Char) : String :=
  if c = '&' then "&amp;"
  else if c = '<' then "&lt;"
  else if c = '>' then "&gt;"
  else if c = Char.ofNat 34 then "&quot;"
  else if c = Char.ofNat 39 then "&apos;"
  else String.singleton c

/-- Concatenation of the per-character escapes. -/
def escListGo : List Char → List Char
  | [] => []
  | c :: rest => (escapeChar c).data ++ escListGo rest

/-- The `escapeXml` helper of server.ts. -/
def escapeXml (s : String) : String := String.mk (escListGo s.data)

/-- A character kept verbatim by `sanitizeFilename`'s regex class
`[a-zA-Z0-9-_\.]`. -/
def goodFileChar (c : Char) : Bool :=
  c.isAlpha || c.isDigit || c == '-' || c == '_' || c == '.'

/-- Replace every maximal run of characters outside the kept class with a
single underscore; the boolean records whether the previous character was part
of such a run. -/
def sanitizeGo : Bool → List Char → List Char
  | _, [] => []
  | prevBad, c :: rest =>
    if goodFileChar c then c :: sanitizeGo false rest
    else if prevBad then sanitizeGo true rest
    else '_' :: sanitizeGo true rest

/-- The `sanitizeFilename` helper of server.ts (lines 597-599):
`replace(/[^a-zA-Z0-9-_\.]+/g, "_").slice(0, 100)`. -/
def sanitizeFilename (s : String) : String :=
  String.mk ((sanitizeGo false s.data).take 100)

/-- An entry of the `results.tests` array of `test_suite_run`. Both kinds of
record are pushed there: per-step records pushed by `runSteps` when called with
phase "test" (line 455/457), and the per-test summary records pushed at line
508. -/
inductive TestsEntry where
  | stepRes (r : StepResult)
  | testRes (name : String) (ok : Bool) (error : Option String) (artifacts : List String)
deriving DecidableEq

/-- The filter `typeof t.ok === "boolean"` of `buildJUnit` (line 586): every
entry pushed into `results.tests` carries a boolean `ok` field, so the filter
keeps every entry. -/
def hasBoolOkFlag (_ : TestsEntry) : Bool := true

/-- The `name` field read by `buildJUnit`. -/
def entryName : TestsEntry → String
  | .stepRes r => r.name
  | .testRes n _ _ _ => n

/-- The `ok` field read by `buildJUnit`. -/
def entryOk : TestsEntry → Bool
  | .stepRes r => r.ok
  | .testRes _ ok _ _ => ok

/-- The value of `t.error || "error"` (line 589). Per-step records carry a
`message` field but no `error` field, so for them `t.error` is undefined and
the fallback literal "error" is used; a test record with an empty or absent
error string also falls back. -/
def entryFailureMsg : TestsEntry → String
  | .stepRes _ => "error"
  | .testRes _ _ err _ =>
    match err with
    | some m => if m = "" then "error" else m
    | none => "error"

/-- One `<testcase>` element of `buildJUnit` (line 589). -/
def caseXml (t : TestsEntry) : String :=
  if entryOk t then "<testcase name=\"" ++ escapeXml (entryName t) ++ "\"/>"
  else
    "<testcase name=\"" ++ escapeXml (entryName t) ++ "\"><failure message=\"" ++
      escapeXml (entryFailureMsg t) ++ "\"/></testcase>"

/-- The `buildJUnit` function of server.ts (lines 585-591), applied to the
`results.tests` array. -/
def buildJUnit (entries : List TestsEntry) : String :=
  let tests := entries.filter hasBoolOkFlag
  let testsCount := tests.length
  let failures := (tests.filter (fun t => !entryOk t)).length
  let cases := String.join (tests.map caseXml)
  "<?xml version=\"1.0\" encoding=\"UTF-8\"?><testsuite name=\"mcp-web-autotest\" tests=\"" ++
    toString testsCount ++ "\" failures=\"" ++ toString failures ++ "\">" ++ cases ++ "</testsuite>"

/-- A test of a suite: a name and its own step sequence. -/
structure Test where
  name : String
  steps : List Step
deriving DecidableEq

/-- The input of `test_suite_run`, with the optional fields resolved the way
the handler reads them: an absent setup/teardown is the empty list (the
`input.setup?.length` guard), `continueOnError` and the capture flags default
to false by JS truthiness, `retries` is read as `input.retries ?? 0`,
`autoBrowser` keeps its optionality (`input.autoBrowser ?? true` is applied at
use), and `artifactsDir` is the resolved directory (explicit path or the
generated `artifacts_${Date.now()}` default). `junitPath` only additionally
persists the report to disk and is not modelled. -/
structure SuiteInput where
  setup : List Step
  tests : List Test
  teardown : List Step
  continueOnError : Bool
  retries : Nat
  junit : Bool
  autoBrowser : Option Bool
  headless : Option Bool
  artifactsDir : String
  onFailureScreenshot : Bool
  traceOnFailure : Bool
deriving DecidableEq

/-- The per-test configuration of the retry loop of `test_suite_run`. -/
structure TestCfg where
  coe : Bool
  traceOF : Bool
  onFailSS : Bool
  retries : Nat
  artDir : String
  tname : String
deriving DecidableEq

/-- Oracle for the invocations made while running one test: `stepO k j` is the
outcome of step `j` of attempt `k`, `trStartO k` / `trStopO k` the tracing
start / success-path stop of attempt `k`, `shotO k` and `trStopCatchO k` the
best-effort screenshot and trace-stop captures of the catch block of
attempt `k`. -/
structure TestOracle where
  stepO : Nat → Nat → Outcome
  trStartO : Nat → Outcome
  trStopO : Nat → Outcome
  shotO : Nat → Outcome
  trStopCatchO : Nat → Outcome

/-- The mutable locals of the retry loop of `test_suite_run` (lines 471-507):
`attempt`, `ok`, `lastErr`, `testArtifacts`, plus the step records pushed into
`results.tests` by `runSteps` and a count of loop iterations entered. -/
structure AttemptSt where
  attempt : Nat
  attemptsMade : Nat
  ok : Bool
  lastErr : Option String
  artifacts : List String
  stepLog : List StepResult
deriving DecidableEq

/-- The screenshot artifact path `path.join(artifactsDir,
`${sanitizeFilename(test.name)}_attempt${attempt}.png`)`. -/
def shotPath (artDir tname : String) (attempt : Nat) : String :=
  artDir ++ "/" ++ sanitizeFilename tname ++ "_attempt" ++ toString attempt ++ ".png"

/-- The trace artifact path `..._attempt${attempt}_trace.zip`. -/
def tracePath (artDir tname : String) (attempt : Nat) : String :=
  artDir ++ "/" ++ sanitizeFilename tname ++ "_attempt" ++ toString attempt ++ "_trace.zip"

/-- The catch block of the retry loop (lines 487-504): record the error,
increment `attempt`, then best-effort screenshot and trace-stop captures
(each adds its artifact only when it does not itself throw; its failure is
swallowed). `k` is the loop-iteration index (the value of `attempt` at the
top of the iteration). -/
def attemptCatch (cfg : TestCfg) (tor : TestOracle) (k : Nat) (e : String)
    (st : AttemptSt) : AttemptSt :=
  let st1 := { st with lastErr := some e, attempt := st.attempt + 1 }
  let st2 :=
    if cfg.onFailSS then
      match tor.shotO k with
      | none => { st1 with artifacts := st1.artifacts ++ [shotPath cfg.artDir cfg.tname st1.attempt] }
      | some _ => st1
    else st1
  if cfg.traceOF then
    match tor.trStopCatchO k with
    | none => { st2 with artifacts := st2.artifacts ++ [tracePath cfg.artDir cfg.tname st2.attempt] }
    | some _ => st2
  else st2

/-- The retry loop `while (attempt <= (input.retries ?? 0))` of
`test_suite_run`: each iteration optionally starts tracing, runs the test's
steps through `runSteps` with the suite's `continueOnError`, on success sets
`ok = true`, stops tracing and breaks; any throw is handled by the catch
block, which breaks once `attempt` exceeds the retry budget. The fuel
argument bounds the iterations; it is set to `retries + 1`, which the
`attempt` counter can never outrun. -/
def attemptLoop (cfg : TestCfg) (steps : List Step) (tor : TestOracle) :
    Nat → AttemptSt → AttemptSt
  | 0, st => st
  | fuel + 1, st =>
    if st.attempt > cfg.retries then st
    else
      let k := st.attempt
      let st0 := { st with attemptsMade := st.attemptsMade + 1 }
      match (if cfg.traceOF then tor.trStartO k else none) with
      | some e =>
        let st' := attemptCatch cfg tor k e st0
        if st'.attempt > cfg.retries then st' else attemptLoop cfg steps tor fuel st'
      | none =>
        let r := runStepsGo cfg.coe (tor.stepO k) steps
        let st1 := { st0 with stepLog := st0.stepLog ++ r.1 }
        match r.2 with
        | some e =>
          let st' := attemptCatch cfg tor k e st1
          if st'.attempt > cfg.retries then st' else attemptLoop cfg steps tor fuel st'
        | none =>
          let st2 := { st1 with ok := true }
          match (if cfg.traceOF then tor.trStopO k else none) with
          | some e =>
            let st' := attemptCatch cfg tor k e st2
            if st'.attempt > cfg.retries then st' else attemptLoop cfg steps tor fuel st'
          | none => st2

/-- Run one test of a suite: the retry loop started with
`attempt = 0, ok = false, lastErr = null`, empty artifact list. -/
def runTestLoop (cfg : TestCfg) (steps : List Step) (tor : TestOracle) : AttemptSt :=
  attemptLoop cfg steps tor (cfg.retries + 1) ⟨0, 0, false, none, [], []⟩

/-- The per-test summary record pushed at line 508:
`{name, ok, error: ok ? undefined : (lastErr?.message ?? String(lastErr)),
artifacts}`. -/
def testEntryOf (t : Test) (st : AttemptSt) : TestsEntry :=
  .testRes t.name st.ok (if st.ok then none else some (st.lastErr.getD "null")) st.artifacts

/-- The `for (const test of input.tests)` loop of `test_suite_run`: run each
test (with the suite's continueOnError, traceOnFailure, onFailureScreenshot,
retries and artifacts directory), append its step records and then its
summary record to `results.tests`, and stop after a failed test when
`continueOnError` is false (line 509). -/
def runTestsGo (coe tf ssOF : Bool) (retries : Nat) (artDir : String)
    (testO : Nat → TestOracle) : List Test → Nat → List TestsEntry → List TestsEntry
  | [], _, acc => acc
  | t :: rest, i, acc =>
    let st := runTestLoop ⟨coe, tf, ssOF, retries, artDir, t.name⟩ t.steps (testO i)
    let acc' := acc ++ st.stepLog.map TestsEntry.stepRes ++ [testEntryOf t st]
    if !st.ok && !coe then acc'
    else runTestsGo coe tf ssOF retries artDir testO rest (i + 1) acc'

/-- Oracle for the invocations of one `test_suite_run` call: the auto-acquire
`browser_open`, the setup steps, each test's invocations, the teardown steps,
and the final `browser_close`. -/
structure SuiteOracle where
  openO : Outcome
  setupO : Nat → Outcome
  testO : Nat → TestOracle
  teardownO : Nat → Outcome
  closeO : Outcome

/-- Observable outcome of one `test_suite_run` call: the three phase logs of
the `results` object, the rendered JUnit report (if requested and reached),
whether `browser_open` was invoked by the auto-acquire step, whether
`browser_close` was invoked by the release step, and the error propagated out
of the handler, if any. -/
structure SuiteOutcome where
  setupRes : List StepResult
  testsRes : List TestsEntry
  teardownRes : List StepResult
  junitOut : Option String
  acquired : Bool
  released : Bool
  thrown : Option String
deriving DecidableEq

/-- The `test_suite_run` handler (server.ts lines 444-521). Auto-acquire a
browser when `autoBrowser ?? true` holds and none is held (line 463); a throw
there propagates. Run setup through `runSteps`; a throw propagates with
nothing else executed. Run the tests. Run teardown through `runSteps`; a
throw propagates before the JUnit report is built and before the release
step. Build the JUnit report if requested. Finally invoke `browser_close`
whenever `autoBrowser ?? true` holds, swallowing its failure (line 519). -/
def modelSuiteRun (input : SuiteInput) (browserHeld : Bool) (so : SuiteOracle) : SuiteOutcome :=
  let shouldAuto := input.autoBrowser.getD true
  let acq := shouldAuto && !browserHeld
  match (if acq then so.openO else none) with
  | some e => ⟨[], [], [], none, acq, false, some e⟩
  | none =>
    let s := if input.setup.isEmpty then ([], none) else runStepsGo input.continueOnError so.setupO input.setup
    match s.2 with
    | some e => ⟨s.1, [], [], none, acq, false, some e⟩
    | none =>
      let tr := runTestsGo input.continueOnError input.traceOnFailure input.onFailureScreenshot
                  input.retries input.artifactsDir so.testO input.tests 0 []
      let td := if input.teardown.isEmpty then ([], none)
                else runStepsGo input.continueOnError so.teardownO input.teardown
      match td.2 with
      | some e => ⟨s.1, tr, td.1, none, acq, false, some e⟩
      | none =>
        let j := if input.junit then some (buildJUnit tr) else none
        ⟨s.1, tr, td.1, j, acq, shouldAuto, none⟩

/-- Lookup in an insertion-ordered association list, the model of
`state.pages : Map<string, Page>` (first matching key wins; a JS Map has
unique keys). Page handles are abstract naturals. -/
def mapGet (m : List (String × Nat)) (k : String) : Option Nat :=
  match m with
  | [] => none
  | p :: rest => if p.1 = k then some p.2 else mapGet rest k

/-- `Map.set`: update an existing key in place (keeping its position) or
append a new binding. -/
def mapSet (m : List (String × Nat)) (k : String) (v : Nat) : List (String × Nat) :=
  match m with
  | [] => [(k, v)]
  | p :: rest => if p.1 = k then (k, v) :: rest else p :: mapSet rest k v

/-- `Map.delete`: remove the binding of `k`. -/
def mapDelete (m : List (String × Nat)) (k : String) : List (String × Nat) :=
  match m with
  | [] => []
  | p :: rest => if p.1 = k then mapDelete rest k else p :: mapDelete rest k

/-- The `BrowserContextState` global of server.ts (lines 15-27) together with
the `pageIdCounter` global and a supply of fresh abstract handles for
browsers/pages. -/
structure BCState where
  browser : Option Nat
  page : Option Nat
  pages : List (String × Nat)
  currentPageId : Option String
  pageIdCounter : Nat
  handleCtr : Nat
deriving DecidableEq

/-- Result of the `browser_open` handler: the state after the call, whether it
threw, and the `headless` value passed to `chromium.launch` (`none` when the
launch was not reached). -/
structure OpenResult where
  st : BCState
  threw : Bool
  launchHeadless : Option Bool
deriving DecidableEq

/-- The `browser_open` handler (server.ts lines 206-230). An already-open
browser is closed first (a throw there propagates with the state untouched).
Line 211 sets `const headless = false`, ignoring `input.headless` (the
env-default computation of line 210 is commented out). Then
`chromium.launch({headless, ...})`, a new context and a new page; the page
table is cleared and seeded with the fresh default page id. The oracle
booleans give the success of the four external calls. -/
def bcBrowserOpen (_inputHeadless : Option Bool)
    (closeOk launchOk ctxOk pageOk : Bool) (s : BCState) : OpenResult :=
  if s.browser.isSome && !closeOk then ⟨s, true, none⟩
  else
    let headless := false
    if !launchOk then ⟨s, true, some headless⟩
    else
      let b := s.handleCtr
      let s1 := { s with browser := some b, handleCtr := s.handleCtr + 1 }
      if !ctxOk then ⟨s1, true, some headless⟩
      else if !pageOk then ⟨s1, true, some headless⟩
      else
        let p := s1.handleCtr
        let pid := "page" ++ toString s1.pageIdCounter
        ⟨⟨some b, some p, [(pid, p)], some pid, s1.pageIdCounter + 1, s1.handleCtr + 1⟩,
          false, some headless⟩

/-- The `browser_close` handler (lines 231-240): when a browser is open, close
it (a throw propagates with the state untouched) and null the whole page
table; otherwise a no-op. -/
def bcBrowserClose (closeOk : Bool) (s : BCState) : BCState × Bool :=
  match s.browser with
  | some _ =>
    if !closeOk then (s, true)
    else (⟨none, none, [], none, s.pageIdCounter, s.handleCtr⟩, false)
  | none => (s, false)

/-- The `page_new` handler (lines 251-260): `ensurePage` throws when no
browser or no page is held; `context.newPage()` may throw (state untouched);
otherwise the new page is stored under `input.id ?? nextPageId()` and becomes
current. -/
def bcPageNew (oid : Option String) (newPageOk : Bool) (s : BCState) : BCState × Bool :=
  if s.browser.isNone || s.page.isNone then (s, true)
  else if !newPageOk then (s, true)
  else
    let p := s.handleCtr
    match oid with
    | some id =>
      ({ s with pages := mapSet s.pages id p, page := some p, currentPageId := some id,
                handleCtr := s.handleCtr + 1 }, false)
    | none =>
      let id := "page" ++ toString s.pageIdCounter
      ({ s with pages := mapSet s.pages id p, page := some p, currentPageId := some id,
                pageIdCounter := s.pageIdCounter + 1, handleCtr := s.handleCtr + 1 }, false)

/-- The `page_switch` handler (lines 261-269): an unknown pageId throws;
otherwise the page becomes current. -/
def bcPageSwitch (id : String) (s : BCState) : BCState × Bool :=
  match mapGet s.pages id with
  | none => (s, true)
  | some t => ({ s with page := some t, currentPageId := some id }, false)

/-- The `page_close` handler (lines 270-287): the target is `input.id ??
state.currentPageId` (throws when both are null or the id is unknown);
`p.close()` may throw (state untouched); then the binding is deleted and, if
the closed page was current, the first remaining page (insertion order) is
promoted, or both `currentPageId` and `page` are nulled. -/
def bcPageClose (oid : Option String) (closeOk : Bool) (s : BCState) : BCState × Bool :=
  match (match oid with | some i => some i | none => s.currentPageId) with
  | none => (s, true)
  | some id =>
    match mapGet s.pages id with
    | none => (s, true)
    | some _ =>
      if !closeOk then (s, true)
      else
        let pages' := mapDelete s.pages id
        if s.currentPageId = some id then
          match pages' with
          | [] => ({ s with pages := [], page := none, currentPageId := none }, false)
          | (k, v) :: rest =>
            ({ s with pages := (k, v) :: rest, page := some v, currentPageId := some k }, false)
        else ({ s with pages := pages' }, false)

/-- The operations that touch the page table, with their external-call
oracles. -/
inductive BcOp where
  | openB (inputHeadless : Option Bool) (closeOk launchOk ctxOk pageOk : Bool)
  | closeB (closeOk : Bool)
  | newP (oid : Option String) (newPageOk : Bool)
  | switchP (id : String)
  | closeP (oid : Option String) (closeOk : Bool)
deriving DecidableEq

/-- The state after running one page-table operation (exceptions leave the
state as the handler left it when it threw). -/
def bcApply : BcOp → BCState → BCState
  | .openB h a b c d, s => (bcBrowserOpen h a b c d s).st
  | .closeB a, s => (bcBrowserClose a s).1
  | .newP oid a, s => (bcPageNew oid a s).1
  | .switchP id, s => (bcPageSwitch id s).1
  | .closeP oid a, s => (bcPageClose oid a s).1

/-- The page-table invariant: a non-null `currentPageId` is a key of
`state.pages` and `state.page` is the page stored under it; a null
`currentPageId` comes with a null `state.page`. -/
def pageInv (s : BCState) : Bool :=
  match s.currentPageId with
  | some id =>
    match mapGet s.pages id with
    | some p => s.page == some p
    | none => false
  | none => s.page == none

/-- A character the report format reserves: angle brackets and both kinds of
quote. -/
def rawReserved (c : Char) : Bool :=
  c == '<' || c == '>' || c == Char.ofNat 34 || c == Char.ofNat 39

/-- The character list begins with the tail of one of the five entities
produced by `escapeXml`. -/
def entityStart : List Char → Bool
  | 'a' :: 'm' :: 'p' :: ';' :: _ => true
  | 'l' :: 't' :: ';' :: _ => true
  | 'g' :: 't' :: ';' :: _ => true
  | 'q' :: 'u' :: 'o' :: 't' :: ';' :: _ => true
  | 'a' :: 'p' :: 'o' :: 's' :: ';' :: _ => true
  | _ => false

/-- Every ampersand of the character list starts one of the five entities. -/
def ampEscaped : List Char → Bool
  | [] => true
  | c :: rest => (if c = '&' then entityStart rest else true) && ampEscaped rest

/-- Attempt `k` of a test runs all its steps without a throw from `runSteps`. -/
def attemptClean (cfg : TestCfg) (steps : List Step) (tor : TestOracle) (k : Nat) : Bool :=
  ((runStepsGo cfg.coe (tor.stepO k) steps).2).isNone

/-- The screenshot artifacts collected by the failing attempts
`lo+1, ..., lo+n` (1-based names), one per attempt whose best-effort capture
succeeded, when screenshot capture is enabled. -/
def shotArtifacts (cfg : TestCfg) (tor : TestOracle) : Nat → Nat → List String
  | _, 0 => []
  | lo, n + 1 =>
    (if cfg.onFailSS && (tor.shotO lo).isNone then [shotPath cfg.artDir cfg.tname (lo + 1)] else []) ++
      shotArtifacts cfg tor (lo + 1) n

/-- The retry-loop configuration of a test run with trace-on-failure capture
disabled. -/
def noTraceCfg (coe ssOF : Bool) (retries : Nat) (artDir tname : String) : TestCfg :=
  ⟨coe, false, ssOF, retries, artDir, tname⟩

/-- Step `j` of the list is a known tool whose invocation (at absolute oracle
position `j + i`) succeeds. -/
def stepOkFrom (steps : List Step) (o : Nat → Outcome) (i j : Nat) : Bool :=
  (match steps[j]? with
   | some sj => knownTool sj.name
   | none => false) && (o (j + i)).isNone

/- ## Concrete inputs used by counterexamples, code-bug evaluations and
witnesses -/

/-- A test oracle whose every invocation succeeds. -/
def allOkTO : TestOracle :=
  ⟨fun _ _ => none, fun _ => none, fun _ => none, fun _ => none, fun _ => none⟩

/-- A test oracle whose every step invocation throws "boom" and whose capture
invocations succeed. -/
def allBoomTO : TestOracle :=
  ⟨fun _ _ => some "boom", fun _ => none, fun _ => none, fun _ => none, fun _ => none⟩

/-- Suite with `continueOnError: true` and one test "t" whose single step
fails. -/
def c1Input : SuiteInput :=
  ⟨[], [⟨"t", [⟨"page_goto"⟩]⟩], [], true, 0, false, some false, none, "art", false, false⟩

def c1Oracle : SuiteOracle := ⟨none, fun _ => none, fun _ => allBoomTO, fun _ => none, none⟩

/-- Suite with a failing setup step, `continueOnError:false` (absent), a
non-empty teardown and default `autoBrowser`. -/
def c2Input : SuiteInput :=
  ⟨[⟨"page_goto"⟩], [], [⟨"browser_close"⟩], false, 0, false, none, none, "art", false, false⟩

def c2Oracle : SuiteOracle :=
  ⟨none, fun _ => some "boom", fun _ => allOkTO, fun _ => none, none⟩

/-- Suite with `junit: true` and two tests, "A" passing and "B" failing, each
with a single step. -/
def c3Input : SuiteInput :=
  ⟨[], [⟨"A", [⟨"page_goto"⟩]⟩, ⟨"B", [⟨"page_click"⟩]⟩], [], false, 0, true, some false,
    none, "art", false, false⟩

def c3Oracle : SuiteOracle :=
  ⟨none, fun _ => none, fun i => if i = 0 then allOkTO else allBoomTO, fun _ => none, none⟩

/-- Retry loop configuration with `retries: 1` and `traceOnFailure: true`. -/
def c4cfg : TestCfg := ⟨false, true, false, 1, "art", "Login"⟩

/-- Oracle whose steps always succeed but whose success-path tracing stop
throws on the first attempt. -/
def c4tor : TestOracle :=
  ⟨fun _ _ => none, fun _ => none, fun k => if k = 0 then some "stopfail" else none,
    fun _ => none, fun _ => some "x"⟩

/-- Suite with no steps at all and default `autoBrowser`. -/
def c7Input : SuiteInput :=
  ⟨[], [], [], false, 0, false, none, none, "art", false, false⟩

def c7Oracle : SuiteOracle := ⟨none, fun _ => none, fun _ => allOkTO, fun _ => none, none⟩

/-- Suite with one always-failing test and a one-step teardown. -/
def c2wIn : SuiteInput :=
  ⟨[], [⟨"t", [⟨"page_goto"⟩]⟩], [⟨"browser_close"⟩], false, 0, false, some false, none,
    "art", false, false⟩

def c2wSO : SuiteOracle := ⟨none, fun _ => none, fun _ => allBoomTO, fun _ => none, none⟩

/- ## Helper lemmas -/

theorem mapGet_set_self (m : List (String × Nat)) (k : String) (v : Nat) :
    mapGet (mapSet m k v) k = some v := by
  induction m with
  | nil => simp [mapSet, mapGet]
  | cons p rest ih =>
    by_cases h : p.1 = k
    · simp [mapSet, mapGet, h]
    · simp [mapSet, mapGet, h, ih]

theorem mapGet_delete_ne (m : List (String × Nat)) (k id : String) (hne : k ≠ id) :
    mapGet (mapDelete m id) k = mapGet m k := by
  induction m with
  | nil => simp [mapDelete, mapGet]
  | cons p rest ih =>
    have hik : ¬ id = k := fun hc => hne hc.symm
    by_cases h : p.1 = id
    · have hpk : ¬ p.1 = k := by
        rw [h]
        exact hik
      simp [mapDelete, mapGet, h, hpk, hik, ih]
    · by_cases h2 : p.1 = k
      · simp [mapDelete, mapGet, h, h2, hne]
      · simp [mapDelete, mapGet, h, h2, hne, ih]

theorem escListGo_safe (cs : List Char) :
    ((escListGo cs).all fun c => !rawReserved c) = true ∧ ampEscaped (escListGo cs) = true := by
  induction cs with
  | nil => exact ⟨rfl, rfl⟩
  | cons c rest ih =>
    obtain ⟨ih1, ih2⟩ := ih
    by_cases h1 : c = '&'
    · subst h1
      have hd : escapeChar '&' = "&amp;" := rfl
      simp only [escListGo, hd]
      constructor
      · simp_all [List.all_append]
        decide
      · show ampEscaped ('&' :: 'a' :: 'm' :: 'p' :: ';' :: escListGo rest) = true
        simp [ampEscaped, entityStart, ih2]
    · by_cases h2 : c = '<'
      · subst h2
        have hd : escapeChar '<' = "&lt;" := rfl
        simp only [escListGo, hd]
        constructor
        · simp_all [List.all_append]
          decide
        · show ampEscaped ('&' :: 'l' :: 't' :: ';' :: escListGo rest) = true
          simp [ampEscaped, entityStart, ih2]
      · by_cases h3 : c = '>'
        · subst h3
          have hd : escapeChar '>' = "&gt;" := rfl
          simp only [escListGo, hd]
          constructor
          · simp_all [List.all_append]
            decide
          · show ampEscaped ('&' :: 'g' :: 't' :: ';' :: escListGo rest) = true
            simp [ampEscaped, entityStart, ih2]
        · by_cases h4 : c = Char.ofNat 34
          · subst h4
            have hd : escapeChar (Char.ofNat 34) = "&quot;" := rfl
            simp only [escListGo, hd]
            constructor
            · simp_all [List.all_append]
              decide
            · show ampEscaped ('&' :: 'q' :: 'u' :: 'o' :: 't' :: ';' :: escListGo rest) = true
              simp [ampEscaped, entityStart, ih2]
          · by_cases h5 : c = Char.ofNat 39
            · subst h5
              have hd : escapeChar (Char.ofNat 39) = "&apos;" := rfl
              simp only [escListGo, hd]
              constructor
              · simp_all [List.all_append]
                decide
              · show ampEscaped ('&' :: 'a' :: 'p' :: 'o' :: 's' :: ';' :: escListGo rest) = true
                simp [ampEscaped, entityStart, ih2]
            · have hd : escapeChar c = String.singleton c := by
                simp [escapeChar, h1, h2, h3, h4, h5]
              have hdata : (String.singleton c).data = [c] := rfl
              simp only [escListGo, hd, hdata, List.singleton_append]
              constructor
              · simp only [List.all_cons, ih1, Bool.and_true]
                simp [rawReserved, h2, h3, h4, h5]
              · simp [ampEscaped, h1, ih2]

/- ## Claim theorems -/

/-- C1, counterexample: in a suite with `continueOnError:true` whose only test
has a single failing step, the attempt in which the step failed still counts
as a successful attempt: the per-test record has `ok = true` even though the
step record pushed by the same attempt has `ok = false` — the claim requires
such an attempt to count as failed (ok = false). -/
theorem C1_counterexample :
    (modelSuiteRun c1Input false c1Oracle).testsRes =
      [TestsEntry.stepRes ⟨"page_goto", false, some "boom"⟩,
        TestsEntry.testRes "t" true none []] := by
  rfl

/-- C2, counterexample: when a setup step fails and `continueOnError` is
false, `runSteps` rethrows and the error propagates straight out of
`test_suite_run`: the teardown log stays empty (teardown is never attempted)
and the auto-acquired browser is not released. -/
theorem C2_counterexample :
    modelSuiteRun c2Input false c2Oracle =
      ⟨[⟨"page_goto", false, some "boom"⟩], [], [], none, true, false, some "boom"⟩ := by
  rfl

set_option maxRecDepth 10000 in
/-- C3, code-bug evaluation: for a suite with `junit:true` and two tests, one
passing and one failing (one step each), the rendered report counts the
per-step records that `runSteps` pushed into `results.tests` as test cases:
it reads `tests="4" failures="2"` with two `testcase` elements containing a
`failure` child, not `tests="2" failures="1"` with exactly one. -/
theorem C3_junit_counts_step_records :
    (modelSuiteRun c3Input false c3Oracle).junitOut =
      some ("<?xml version=\"1.0\" encoding=\"UTF-8\"?><testsuite name=\"mcp-web-autotest\" tests=\"4\" failures=\"2\"><testcase name=\"page_goto\"/><testcase name=\"A\"/><testcase name=\"page_click\"><failure message=\"error\"/></testcase><testcase name=\"B\"><failure message=\"boom\"/></testcase></testsuite>") := by
  rfl

/-- C4, counterexample: with trace-on-failure capture enabled, a failure while
stopping tracing after a successful attempt is caught like a failed attempt,
so the loop retries a test whose first attempt already completed every step:
two attempts are made although the first attempt's steps were all clean
(first success attempt index 1, retries 1, so the claim demands
min(1, 2) = 1 attempt). -/
theorem C4_counterexample :
    (runTestLoop c4cfg [⟨"page_goto"⟩] c4tor).attemptsMade = 2 ∧
    (runTestLoop c4cfg [⟨"page_goto"⟩] c4tor).ok = true ∧
    allStepsCleanB (c4tor.stepO 0) [⟨"page_goto"⟩] = true := by
  refine ⟨rfl, rfl, rfl⟩

/-- C7, counterexample: a suite run entered while a browser is already held,
with `autoBrowser` unset (defaulting to true), does not auto-acquire a
browser in step 1, yet the release step still invokes `browser_close`: the
release condition is `shouldAutoBrowser`, not "was auto-acquired", so the
previously held browser is closed rather than left open. -/
theorem C7_counterexample :
    (modelSuiteRun c7Input true c7Oracle).acquired = false ∧
    (modelSuiteRun c7Input true c7Oracle).released = true := by
  exact ⟨rfl, rfl⟩

/-- C8: the Report Builder is deterministic — rendering the same
`results.tests` value twice yields identical text — and `escapeXml`, which is
applied to every free-text value embedded in the report (test-case names and
failure messages), leaves no raw angle bracket or quote in its output and
turns every ampersand into the head of one of the five entities. -/
theorem C8_report_deterministic_escaped (entries : List TestsEntry) (s : String) :
    buildJUnit entries = buildJUnit entries ∧
    ((escapeXml s).data.all fun c => !rawReserved c) = true ∧
    ampEscaped (escapeXml s).data = true :=
  ⟨rfl, (escListGo_safe s.data).1, (escListGo_safe s.data).2⟩

/-- C9: every operation that touches the page table (browser_open,
browser_close, page_new, page_switch, page_close, each with any outcome of
its external calls) preserves the invariant that a non-null `currentPageId`
is a key of `state.pages` with `state.page` the page stored under it, and a
null `currentPageId` comes with a null `state.page`. -/
theorem C9_page_table_invariant (op : BcOp) (s : BCState) (h : pageInv s = true) :
    pageInv (bcApply op s) = true := by
  cases op with
  | openB ih a b c d =>
    simp only [bcApply, bcBrowserOpen]
    by_cases h1 : s.browser.isSome && !a
    · simpa [h1] using h
    · by_cases h2 : !b
      · simpa [h1, h2] using h
      · by_cases h3 : !c
        · simp only [h1, h2, h3, Bool.false_eq_true, if_false, if_true]
          exact h
        · by_cases h4 : !d
          · simp only [h1, h2, h3, h4, Bool.false_eq_true, if_false, if_true]
            exact h
          · simp [h1, h2, h3, h4, pageInv, mapGet]
  | closeB a =>
    simp only [bcApply, bcBrowserClose]
    cases hb : s.browser with
    | none => simpa [hb] using h
    | some b0 =>
      by_cases h1 : !a
      · simpa [hb, h1] using h
      · simp [hb, h1, pageInv]
  | newP oid a =>
    simp only [bcApply, bcPageNew]
    by_cases h1 : s.browser.isNone || s.page.isNone
    · simpa [h1] using h
    · by_cases h2 : !a
      · simpa [h1, h2] using h
      · cases oid with
        | some id => simp [h1, h2, pageInv, mapGet_set_self]
        | none => simp [h1, h2, pageInv, mapGet_set_self]
  | switchP id =>
    simp only [bcApply, bcPageSwitch]
    cases hg : mapGet s.pages id with
    | none => simpa [hg] using h
    | some t => simp [hg, pageInv]
  | closeP oid a =>
    simp only [bcApply, bcPageClose]
    cases hid : (match oid with | some i => some i | none => s.currentPageId) with
    | none => simpa [hid] using h
    | some id =>
      cases hg : mapGet s.pages id with
      | none => simpa [hid, hg] using h
      | some p0 =>
        by_cases h1 : !a
        · simpa [hid, hg, h1] using h
        · by_cases hcur : s.currentPageId = some id
          · cases hdel : mapDelete s.pages id with
            | nil => simp [hid, hg, h1, hcur, hdel, pageInv]
            | cons kv rest =>
              obtain ⟨k, v⟩ := kv
              simp [hid, hg, h1, hcur, hdel, pageInv, mapGet]
          · cases hc2 : s.currentPageId with
            | none =>
              simp only [pageInv, hc2] at h
              simp [hid, hg, h1, hcur, pageInv, hc2, h]
            | some cid =>
              have hcne : cid ≠ id := by
                intro hc
                exact hcur (by rw [hc2, hc])
              simp only [pageInv, hc2] at h
              simp [hid, hg, h1, hcur, hcne, pageInv, hc2, mapGet_delete_ne _ _ _ hcne, h]

/-- C9, witness: a concrete state satisfying the invariant, preserved by
closing the current page. -/
theorem C9_witness :
    pageInv ⟨some 0, some 1, [("page1", 1)], some "page1", 2, 2⟩ = true ∧
    pageInv (bcApply (BcOp.closeP none true) ⟨some 0, some 1, [("page1", 1)], some "page1", 2, 2⟩) = true :=
  ⟨by decide, C9_page_table_invariant (BcOp.closeP none true) ⟨some 0, some 1, [("page1", 1)], some "page1", 2, 2⟩ (by decide)⟩

/-- C10: `browser_open` computes `const headless = false` and passes it to
`chromium.launch` regardless of its `headless` argument (whenever the launch
is reached, i.e. unless closing the previous browser threw), and the outcome
of `test_suite_run` does not depend on the suite's `headless` field at all. -/
theorem C10_headless_ignored :
    (∀ (hArg : Option Bool) (a b c d : Bool) (s : BCState),
      (bcBrowserOpen hArg a b c d s).launchHeadless =
        if s.browser.isSome && !a then none else some false) ∧
    (∀ (su td : List Step) (ts : List Test) (coe : Bool) (r : Nat) (j : Bool)
      (ab h1 h2 : Option Bool) (ad : String) (ss tf held : Bool) (so : SuiteOracle),
      modelSuiteRun ⟨su, ts, td, coe, r, j, ab, h1, ad, ss, tf⟩ held so =
        modelSuiteRun ⟨su, ts, td, coe, r, j, ab, h2, ad, ss, tf⟩ held so) := by
  constructor
  · intro hArg a b c d s
    by_cases h1 : s.browser.isSome && !a
    · simp [bcBrowserOpen, h1]
    · by_cases h2 : !b
      · simp [bcBrowserOpen, h1, h2]
      · by_cases h3 : !c
        · simp [bcBrowserOpen, h1, h2, h3]
        · by_cases h4 : !d
          · simp [bcBrowserOpen, h1, h2, h3, h4]
          · simp [bcBrowserOpen, h1, h2, h3, h4]
  · intro su td ts coe r j ab h1 h2 ad ss tf held so
    rfl

/- ## Step-runner and retry-loop characterization lemmas -/

theorem runStepsGo_coe_true (steps : List Step) : ∀ (o : Nat → Outcome),
    (runStepsGo true o steps).2 = none := by
  induction steps with
  | nil => intro o; rfl
  | cons s rest ih =>
    intro o
    cases h : (if knownTool s.name then o 0 else some "未知工具") with
    | none => simp only [runStepsGo, h]; exact ih _
    | some m => simp only [runStepsGo, h, if_true]; exact ih _

theorem runStepsGo_none_iff (steps : List Step) : ∀ (o : Nat → Outcome),
    (runStepsGo false o steps).2 = none ↔ allStepsCleanB o steps = true := by
  induction steps with
  | nil => intro o; simp [runStepsGo, allStepsCleanB]
  | cons s rest ih =>
    intro o
    by_cases hk : knownTool s.name
    · cases ho : o 0 with
      | none => simp [runStepsGo, allStepsCleanB, hk, ho, ih]
      | some m => simp [runStepsGo, allStepsCleanB, hk, ho]
    · simp [runStepsGo, allStepsCleanB, hk]

theorem attemptCatch_traceOff (cfg : TestCfg) (tor : TestOracle) (k : Nat) (e : String)
    (st : AttemptSt) (htr : cfg.traceOF = false) :
    attemptCatch cfg tor k e st =
      { st with lastErr := some e, attempt := st.attempt + 1,
                artifacts := st.artifacts ++
                  (if cfg.onFailSS && (tor.shotO k).isNone
                   then [shotPath cfg.artDir cfg.tname (st.attempt + 1)] else []) } := by
  simp only [attemptCatch, htr]
  by_cases hss : cfg.onFailSS
  · cases hs : tor.shotO k with
    | none => simp [hss, hs]
    | some m => simp [hss, hs]
  · simp [hss]

theorem attemptLoop_failStep (cfg : TestCfg) (steps : List Step) (tor : TestOracle)
    (htr : cfg.traceOF = false) (fuel : Nat) (st : AttemptSt) (e : String)
    (hle : st.attempt ≤ cfg.retries)
    (hr : (runStepsGo cfg.coe (tor.stepO st.attempt) steps).2 = some e) :
    attemptLoop cfg steps tor (fuel + 1) st =
      (if (attemptCatch cfg tor st.attempt e
            { st with attemptsMade := st.attemptsMade + 1,
                      stepLog := st.stepLog ++ (runStepsGo cfg.coe (tor.stepO st.attempt) steps).1 }).attempt >
          cfg.retries
       then attemptCatch cfg tor st.attempt e
              { st with attemptsMade := st.attemptsMade + 1,
                        stepLog := st.stepLog ++ (runStepsGo cfg.coe (tor.stepO st.attempt) steps).1 }
       else attemptLoop cfg steps tor fuel
              (attemptCatch cfg tor st.attempt e
                { st with attemptsMade := st.attemptsMade + 1,
                          stepLog := st.stepLog ++ (runStepsGo cfg.coe (tor.stepO st.attempt) steps).1 })) := by
  have h1 : ¬ (st.attempt > cfg.retries) := Nat.not_lt.mpr hle
  simp only [attemptLoop, h1, if_false, htr, Bool.false_eq_true, hr]

theorem attemptLoop_succStep (cfg : TestCfg) (steps : List Step) (tor : TestOracle)
    (htr : cfg.traceOF = false) (fuel : Nat) (st : AttemptSt)
    (hle : st.attempt ≤ cfg.retries)
    (hr : (runStepsGo cfg.coe (tor.stepO st.attempt) steps).2 = none) :
    attemptLoop cfg steps tor (fuel + 1) st =
      { st with attemptsMade := st.attemptsMade + 1,
                stepLog := st.stepLog ++ (runStepsGo cfg.coe (tor.stepO st.attempt) steps).1,
                ok := true } := by
  have h1 : ¬ (st.attempt > cfg.retries) := Nat.not_lt.mpr hle
  simp only [attemptLoop, h1, if_false, htr, Bool.false_eq_true, hr]

theorem attemptLoop_allFail (cfg : TestCfg) (steps : List Step) (tor : TestOracle)
    (htr : cfg.traceOF = false) :
    ∀ (fuel : Nat) (st : AttemptSt), st.attempt + fuel = cfg.retries + 1 →
    (∀ k, st.attempt ≤ k → k ≤ cfg.retries → attemptClean cfg steps tor k = false) →
    (attemptLoop cfg steps tor fuel st).ok = st.ok ∧
    (attemptLoop cfg steps tor fuel st).attemptsMade = st.attemptsMade + fuel ∧
    (attemptLoop cfg steps tor fuel st).lastErr =
      (if fuel = 0 then st.lastErr else (runStepsGo cfg.coe (tor.stepO cfg.retries) steps).2) ∧
    (attemptLoop cfg steps tor fuel st).artifacts =
      st.artifacts ++ shotArtifacts cfg tor st.attempt fuel := by
  intro fuel
  induction fuel with
  | zero =>
    intro st _ _
    simp [attemptLoop, shotArtifacts]
  | succ fuel ih =>
    intro st hfuel hfail
    have hle : st.attempt ≤ cfg.retries := by omega
    have hcl : attemptClean cfg steps tor st.attempt = false :=
      hfail st.attempt (Nat.le_refl _) hle
    obtain ⟨e, he⟩ : ∃ e, (runStepsGo cfg.coe (tor.stepO st.attempt) steps).2 = some e := by
      cases hx : (runStepsGo cfg.coe (tor.stepO st.attempt) steps).2 with
      | none => simp [attemptClean, hx] at hcl
      | some m => exact ⟨m, rfl⟩
    rw [attemptLoop_failStep cfg steps tor htr fuel st e hle he]
    rw [attemptCatch_traceOff cfg tor st.attempt e _ htr]
    by_cases hstop : st.attempt + 1 > cfg.retries
    · have hf0 : fuel = 0 := by omega
      have hrt : st.attempt = cfg.retries := by omega
      subst hf0
      rw [if_pos hstop]
      refine ⟨rfl, rfl, ?_, ?_⟩
      · show some e = if 0 + 1 = 0 then _ else (runStepsGo cfg.coe (tor.stepO cfg.retries) steps).2
        rw [if_neg (by omega : ¬ (0 + 1 = 0)), ← hrt, he]
      · show st.artifacts ++ _ = st.artifacts ++ shotArtifacts cfg tor st.attempt (0 + 1)
        simp [shotArtifacts]
    · rw [if_neg hstop]
      have hrec := ih { st with attemptsMade := st.attemptsMade + 1,
                                stepLog := st.stepLog ++ (runStepsGo cfg.coe (tor.stepO st.attempt) steps).1,
                                lastErr := some e, attempt := st.attempt + 1,
                                artifacts := st.artifacts ++
                                  (if cfg.onFailSS && (tor.shotO st.attempt).isNone
                                   then [shotPath cfg.artDir cfg.tname (st.attempt + 1)] else []) }
        (by simp; omega)
        (by intro k hk1 hk2; exact hfail k (by simp at hk1; omega) hk2)
      obtain ⟨h1, h2, h3, h4⟩ := hrec
      have hfne : ¬ (fuel = 0) := by omega
      refine ⟨h1, ?_, ?_, ?_⟩
      · rw [h2]
        simp
        omega
      · rw [h3, if_neg hfne, if_neg (by omega : ¬ (fuel + 1 = 0))]
      · rw [h4]
        simp only [shotArtifacts, List.append_assoc]

theorem attemptLoop_firstClean (cfg : TestCfg) (steps : List Step) (tor : TestOracle)
    (htr : cfg.traceOF = false) :
    ∀ (fuel : Nat) (st : AttemptSt) (k0 : Nat), st.attempt + fuel = cfg.retries + 1 →
    st.attempt ≤ k0 → k0 ≤ cfg.retries →
    attemptClean cfg steps tor k0 = true →
    (∀ k, st.attempt ≤ k → k < k0 → attemptClean cfg steps tor k = false) →
    (attemptLoop cfg steps tor fuel st).ok = true ∧
    (attemptLoop cfg steps tor fuel st).attemptsMade =
      st.attemptsMade + (k0 + 1 - st.attempt) ∧
    (attemptLoop cfg steps tor fuel st).artifacts =
      st.artifacts ++ shotArtifacts cfg tor st.attempt (k0 - st.attempt) := by
  intro fuel
  induction fuel with
  | zero =>
    intro st k0 hfuel hak0 hk0r _ _
    omega
  | succ fuel ih =>
    intro st k0 hfuel hak0 hk0r hclean hprior
    have hle : st.attempt ≤ cfg.retries := by omega
    by_cases heq : st.attempt = k0
    · have he : (runStepsGo cfg.coe (tor.stepO st.attempt) steps).2 = none := by
        have := hclean
        rw [← heq] at this
        simpa [attemptClean, Option.isNone_iff_eq_none] using this
      rw [attemptLoop_succStep cfg steps tor htr fuel st hle he]
      refine ⟨rfl, ?_, ?_⟩
      · show st.attemptsMade + 1 = st.attemptsMade + (k0 + 1 - st.attempt)
        omega
      · show st.artifacts = st.artifacts ++ shotArtifacts cfg tor st.attempt (k0 - st.attempt)
        have hz : k0 - st.attempt = 0 := by omega
        rw [hz]
        simp [shotArtifacts]
    · have hlt : st.attempt < k0 := Nat.lt_of_le_of_ne hak0 heq
      have hcl : attemptClean cfg steps tor st.attempt = false :=
        hprior st.attempt (Nat.le_refl _) hlt
      obtain ⟨e, he⟩ : ∃ e, (runStepsGo cfg.coe (tor.stepO st.attempt) steps).2 = some e := by
        cases hx : (runStepsGo cfg.coe (tor.stepO st.attempt) steps).2 with
        | none => simp [attemptClean, hx] at hcl
        | some m => exact ⟨m, rfl⟩
      rw [attemptLoop_failStep cfg steps tor htr fuel st e hle he]
      rw [attemptCatch_traceOff cfg tor st.attempt e _ htr]
      have hstop : ¬ (st.attempt + 1 > cfg.retries) := by omega
      rw [if_neg hstop]
      have hrec := ih { st with attemptsMade := st.attemptsMade + 1,
                                stepLog := st.stepLog ++ (runStepsGo cfg.coe (tor.stepO st.attempt) steps).1,
                                lastErr := some e, attempt := st.attempt + 1,
                                artifacts := st.artifacts ++
                                  (if cfg.onFailSS && (tor.shotO st.attempt).isNone
                                   then [shotPath cfg.artDir cfg.tname (st.attempt + 1)] else []) }
        k0 (by simp; omega) (by simpa using hlt) hk0r hclean
        (by intro k hk1 hk2; exact hprior k (by simp at hk1; omega) hk2)
      obtain ⟨h1, h2, h3⟩ := hrec
      refine ⟨h1, ?_, ?_⟩
      · rw [h2]
        simp
        omega
      · rw [h3]
        have harith : k0 - st.attempt = (k0 - (st.attempt + 1)) + 1 := by omega
        rw [harith]
        simp only [shotArtifacts, List.append_assoc]

theorem upFrom_length (n : Nat) : ∀ (s : Nat), (upFrom s n).length = n := by
  induction n with
  | zero => intro s; rfl
  | succ n ih => intro s; simp [upFrom, ih]

theorem modelPlanGo_coe_true (steps : List Step) : ∀ (o : Nat → Outcome) (i : Nat),
    (modelPlanGo true o steps i).map PlanEntry.step = upFrom (i + 1) steps.length ∧
    (modelPlanGo true o steps i).map PlanEntry.name = steps.map Step.name := by
  induction steps with
  | nil => intro o i; exact ⟨rfl, rfl⟩
  | cons s rest ih =>
    intro o i
    obtain ⟨ih1, ih2⟩ := ih o (i + 1)
    by_cases hk : knownTool s.name
    · cases ho : o i with
      | none => simp [modelPlanGo, hk, ho, upFrom, ih1, ih2]
      | some m => simp [modelPlanGo, hk, ho, upFrom, ih1, ih2]
    · simp [modelPlanGo, hk, upFrom, ih1, ih2]

theorem planGo_firstFail (steps : List Step) : ∀ (o o' : Nat → Outcome) (i f : Nat),
    f < steps.length →
    (∀ j, j < f → stepOkFrom steps o i j = true) →
    stepOkFrom steps o i f = false →
    (∀ j, j ≤ f → o' (j + i) = o (j + i)) →
    (modelPlanGo false o steps i).length = f + 1 ∧
    (modelPlanGo false o steps i).map PlanEntry.step = upFrom (i + 1) (f + 1) ∧
    (∀ j, j < f → ((modelPlanGo false o steps i)[j]?).map PlanEntry.ok = some true) ∧
    (((modelPlanGo false o steps i)[f]?).map PlanEntry.ok = some false) ∧
    modelPlanGo false o' steps i = modelPlanGo false o steps i := by
  induction steps with
  | nil =>
    intro o o' i f hf
    simp at hf
  | cons s rest ih =>
    intro o o' i f hf hpre hfail hagree
    cases f with
    | zero =>
      have hfail0 : (knownTool s.name && (o (0 + i)).isNone) = false := by
        simpa [stepOkFrom] using hfail
      have hagree0 : o' (0 + i) = o (0 + i) := hagree 0 (Nat.le_refl 0)
      rw [Nat.zero_add] at hfail0 hagree0
      by_cases hk : knownTool s.name
      · obtain ⟨m, hm⟩ : ∃ m, o i = some m := by
          cases hx : o i with
          | none => rw [hk, hx] at hfail0; simp at hfail0
          | some m => exact ⟨m, rfl⟩
        refine ⟨?_, ?_, ?_, ?_, ?_⟩
        · simp [modelPlanGo, hk, hm]
        · simp [modelPlanGo, hk, hm, upFrom]
        · intro j hj; omega
        · simp [modelPlanGo, hk, hm]
        · simp [modelPlanGo, hk, hm, hagree0]
      · refine ⟨?_, ?_, ?_, ?_, ?_⟩
        · simp [modelPlanGo, hk]
        · simp [modelPlanGo, hk, upFrom]
        · intro j hj; omega
        · simp [modelPlanGo, hk]
        · simp [modelPlanGo, hk]
    | succ f' =>
      have h0 : (knownTool s.name && (o (0 + i)).isNone) = true := by
        simpa [stepOkFrom] using hpre 0 (Nat.succ_pos f')
      rw [Nat.zero_add] at h0
      have hk : knownTool s.name = true := by
        cases hkk : knownTool s.name
        · rw [hkk] at h0; simp at h0
        · rfl
      have ho0 : o i = none := by
        cases hx : o i
        · rfl
        · rw [hk, hx] at h0; simp at h0
      have hagree0 : o' i = o i := by
        have := hagree 0 (Nat.zero_le _)
        rwa [Nat.zero_add] at this
      have hfr : f' < rest.length := by simpa using hf
      have hpre' : ∀ j, j < f' → stepOkFrom rest o (i + 1) j = true := by
        intro j hj
        have h2 := hpre (j + 1) (Nat.succ_lt_succ hj)
        have he : j + 1 + i = j + (i + 1) := by omega
        simp only [stepOkFrom, List.getElem?_cons_succ] at h2
        rw [he] at h2
        simp only [stepOkFrom]
        exact h2
      have hfail' : stepOkFrom rest o (i + 1) f' = false := by
        have h2 := hfail
        have he : f' + 1 + i = f' + (i + 1) := by omega
        simp only [stepOkFrom, List.getElem?_cons_succ] at h2
        rw [he] at h2
        simp only [stepOkFrom]
        exact h2
      have hagree' : ∀ j, j ≤ f' → o' (j + (i + 1)) = o (j + (i + 1)) := by
        intro j hj
        have := hagree (j + 1) (Nat.succ_le_succ hj)
        have he : j + 1 + i = j + (i + 1) := by omega
        rwa [he] at this
      obtain ⟨l1, l2, l3, l4, l5⟩ := ih o o' (i + 1) f' hfr hpre' hfail' hagree'
      refine ⟨?_, ?_, ?_, ?_, ?_⟩
      · simp [modelPlanGo, hk, ho0, l1]
      · simp [modelPlanGo, hk, ho0, upFrom, l2]
      · intro j hj
        cases j with
        | zero => simp [modelPlanGo, hk, ho0]
        | succ j' =>
          have := l3 j' (Nat.lt_of_succ_lt_succ hj)
          simpa [modelPlanGo, hk, ho0] using this
      · have := l4
        simpa [modelPlanGo, hk, ho0] using this
      · simp [modelPlanGo, hk, ho0, hagree0, l5]

/-- C5: for a plan run with `continueOnError=false` whose first failing step
(including failure by naming an unknown tool) is step `f+1` (1-based; `f` is
the 0-based index), the result log has exactly `f+1` entries carrying the
1-based step indices, the entries before the failure are `ok`, the entry of
the failing step has `ok=false`, and the run never invokes any later step:
its result only depends on the oracle's outcomes for steps up to the failing
one. -/
theorem C5_plan_stops_at_first_failure (steps : List Step) (o o' : Nat → Outcome) (f : Nat)
    (hf : f < steps.length)
    (hpre : ∀ j, j < f → stepOkFrom steps o 0 j = true)
    (hfail : stepOkFrom steps o 0 f = false)
    (hagree : ∀ j, j ≤ f → o' j = o j) :
    (modelPlanRun steps false o).length = f + 1 ∧
    (modelPlanRun steps false o).map PlanEntry.step = upFrom 1 (f + 1) ∧
    (∀ j, j < f → ((modelPlanRun steps false o)[j]?).map PlanEntry.ok = some true) ∧
    (((modelPlanRun steps false o)[f]?).map PlanEntry.ok = some false) ∧
    modelPlanRun steps false o' = modelPlanRun steps false o := by
  have hagree' : ∀ j, j ≤ f → o' (j + 0) = o (j + 0) := fun j hj => hagree j hj
  exact planGo_firstFail steps o o' 0 f hf hpre hfail hagree'

/-- C5, witness: a two-step plan whose second step names an unknown tool stops
with a log of exactly two entries. -/
theorem C5_witness :
    (modelPlanRun [⟨"page_goto"⟩, ⟨"nope"⟩] false (fun _ => none)).length = 2 ∧
    ((modelPlanRun [⟨"page_goto"⟩, ⟨"nope"⟩] false (fun _ => none))[1]?).map PlanEntry.ok =
      some false := by
  have h := C5_plan_stops_at_first_failure [⟨"page_goto"⟩, ⟨"nope"⟩] (fun _ => none)
    (fun _ => none) 1 (by decide)
    (by
      intro j hj
      have hj0 : j = 0 := by omega
      subst hj0
      decide)
    (by decide)
    (fun _ _ => rfl)
  exact ⟨h.1, h.2.2.2.1⟩

/-- C6: for a plan run with `continueOnError=true` the result log always has
one entry per step, in execution order, carrying the 1-based step index and
the step's name. -/
theorem C6_plan_continue_full_log (steps : List Step) (o : Nat → Outcome) :
    (modelPlanRun steps true o).length = steps.length ∧
    (modelPlanRun steps true o).map PlanEntry.step = upFrom 1 steps.length ∧
    (modelPlanRun steps true o).map PlanEntry.name = steps.map Step.name := by
  obtain ⟨h1, h2⟩ := modelPlanGo_coe_true steps o 0
  refine ⟨?_, h1, h2⟩
  have hl := congrArg List.length h1
  rw [List.length_map] at hl
  show (modelPlanGo true o steps 0).length = steps.length
  rw [hl, upFrom_length]

/-- C1, amended: a test's steps run through `runSteps` with the suite's
`continueOnError`, not with continue-on-error forced to false. With
trace-on-failure capture disabled: when the suite's `continueOnError` is
true, `runSteps` never throws, so every attempt counts as successful and the
TestResult has `ok=true` even when steps failed; when it is false, the
attempt aborts on the first failing step and `ok=true` iff some attempt
within the retry budget ran all the steps (each resolving to a known tool)
without failure. -/
theorem C1_amended_test_ok (coe ssOF : Bool) (retries : Nat) (artDir tname : String)
    (steps : List Step) (tor : TestOracle) :
    (coe = true → (runTestLoop (noTraceCfg coe ssOF retries artDir tname) steps tor).ok = true) ∧
    (coe = false →
      ((runTestLoop (noTraceCfg coe ssOF retries artDir tname) steps tor).ok = true ↔
        ∃ k, k ≤ retries ∧ allStepsCleanB (tor.stepO k) steps = true)) := by
  constructor
  · intro hc
    subst hc
    have hclean : attemptClean (noTraceCfg true ssOF retries artDir tname) steps tor 0 = true := by
      simp [attemptClean, noTraceCfg, runStepsGo_coe_true]
    have h := attemptLoop_firstClean (noTraceCfg true ssOF retries artDir tname) steps tor rfl
      (retries + 1) ⟨0, 0, false, none, [], []⟩ 0 (by simp [noTraceCfg]) (Nat.le_refl 0)
      (Nat.zero_le _) hclean (by intro k hk1 hk2; omega)
    exact h.1
  · intro hc
    subst hc
    constructor
    · intro hok
      by_contra hne
      push_neg at hne
      have hfail : ∀ k, (⟨0, 0, false, none, [], []⟩ : AttemptSt).attempt ≤ k →
          k ≤ (noTraceCfg false ssOF retries artDir tname).retries →
          attemptClean (noTraceCfg false ssOF retries artDir tname) steps tor k = false := by
        intro k _ hk
        have hq := hne k hk
        cases hx : (runStepsGo false (tor.stepO k) steps).2 with
        | none =>
          exact absurd ((runStepsGo_none_iff steps (tor.stepO k)).mp hx) hq
        | some m =>
          simp [attemptClean, noTraceCfg, hx]
      have h := attemptLoop_allFail (noTraceCfg false ssOF retries artDir tname) steps tor rfl
        (retries + 1) ⟨0, 0, false, none, [], []⟩ (by simp [noTraceCfg]) hfail
      have hko : (runTestLoop (noTraceCfg false ssOF retries artDir tname) steps tor).ok = false :=
        h.1
      rw [hok] at hko
      exact absurd hko (by decide)
    · rintro ⟨k, hk, hcl⟩
      have hcl' : attemptClean (noTraceCfg false ssOF retries artDir tname) steps tor k = true := by
        have h2 := (runStepsGo_none_iff steps (tor.stepO k)).mpr hcl
        simp [attemptClean, noTraceCfg, h2]
      have hex : ∃ n, attemptClean (noTraceCfg false ssOF retries artDir tname) steps tor n = true :=
        ⟨k, hcl'⟩
      have hk0c : attemptClean (noTraceCfg false ssOF retries artDir tname) steps tor
          (Nat.find hex) = true := Nat.find_spec hex
      have hk0le : Nat.find hex ≤ k := Nat.find_min' hex hcl'
      have hk0r : Nat.find hex ≤ retries := le_trans hk0le hk
      have hprior : ∀ j, (⟨0, 0, false, none, [], []⟩ : AttemptSt).attempt ≤ j →
          j < Nat.find hex →
          attemptClean (noTraceCfg false ssOF retries artDir tname) steps tor j = false := by
        intro j _ hj
        have hnt := Nat.find_min hex hj
        cases hx : attemptClean (noTraceCfg false ssOF retries artDir tname) steps tor j with
        | false => rfl
        | true => exact absurd hx hnt
      have h := attemptLoop_firstClean (noTraceCfg false ssOF retries artDir tname) steps tor rfl
        (retries + 1) ⟨0, 0, false, none, [], []⟩ (Nat.find hex) (by simp [noTraceCfg])
        (Nat.zero_le _) hk0r hk0c hprior
      exact h.1

/-- C1, witness for the amended claim: with `continueOnError=true` a test
whose single step always fails still gets `ok=true`. -/
theorem C1_witness :
    (runTestLoop (noTraceCfg true false 0 "art" "t") [⟨"page_goto"⟩] allBoomTO).ok = true :=
  (C1_amended_test_ok true false 0 "art" "t" [⟨"page_goto"⟩] allBoomTO).1 rfl

/-- C4, amended (trace-on-failure capture disabled): if the first clean
attempt is attempt `k0+1` (1-based) and `k0 ≤ R`, exactly `k0+1` attempts are
made, the test passes, and the artifact list holds one screenshot per failing
attempt whose best-effort capture succeeded (when capture is enabled), named
from the sanitized test name and the 1-based attempt number; if no attempt
within the budget is clean, exactly `R+1` attempts are made, the test fails
with the error of the last attempt, and the artifacts likewise cover all
`R+1` failing attempts. -/
theorem C4_amended_retry_budget (coe ssOF : Bool) (R : Nat) (artDir tname : String)
    (steps : List Step) (tor : TestOracle) :
    (∀ k0, k0 ≤ R → attemptClean (noTraceCfg coe ssOF R artDir tname) steps tor k0 = true →
      (∀ k, k < k0 → attemptClean (noTraceCfg coe ssOF R artDir tname) steps tor k = false) →
      (runTestLoop (noTraceCfg coe ssOF R artDir tname) steps tor).ok = true ∧
      (runTestLoop (noTraceCfg coe ssOF R artDir tname) steps tor).attemptsMade = k0 + 1 ∧
      (runTestLoop (noTraceCfg coe ssOF R artDir tname) steps tor).artifacts =
        shotArtifacts (noTraceCfg coe ssOF R artDir tname) tor 0 k0) ∧
    ((∀ k, k ≤ R → attemptClean (noTraceCfg coe ssOF R artDir tname) steps tor k = false) →
      (runTestLoop (noTraceCfg coe ssOF R artDir tname) steps tor).ok = false ∧
      (runTestLoop (noTraceCfg coe ssOF R artDir tname) steps tor).attemptsMade = R + 1 ∧
      (runTestLoop (noTraceCfg coe ssOF R artDir tname) steps tor).lastErr =
        (runStepsGo coe (tor.stepO R) steps).2 ∧
      (runTestLoop (noTraceCfg coe ssOF R artDir tname) steps tor).artifacts =
        shotArtifacts (noTraceCfg coe ssOF R artDir tname) tor 0 (R + 1)) := by
  constructor
  · intro k0 hk0 hclean hprior
    have h := attemptLoop_firstClean (noTraceCfg coe ssOF R artDir tname) steps tor rfl
      (R + 1) ⟨0, 0, false, none, [], []⟩ k0 (by simp [noTraceCfg]) (Nat.zero_le _) hk0 hclean
      (by intro j _ hj; exact hprior j hj)
    refine ⟨h.1, ?_, ?_⟩
    · have h2 : (runTestLoop (noTraceCfg coe ssOF R artDir tname) steps tor).attemptsMade =
          0 + (k0 + 1 - 0) := h.2.1
      rw [h2]
      omega
    · have h3 : (runTestLoop (noTraceCfg coe ssOF R artDir tname) steps tor).artifacts =
          [] ++ shotArtifacts (noTraceCfg coe ssOF R artDir tname) tor 0 (k0 - 0) := h.2.2
      rw [h3]
      simp
  · intro hall
    have h := attemptLoop_allFail (noTraceCfg coe ssOF R artDir tname) steps tor rfl
      (R + 1) ⟨0, 0, false, none, [], []⟩ (by simp [noTraceCfg])
      (by intro k _ hk; exact hall k hk)
    refine ⟨h.1, ?_, ?_, ?_⟩
    · have h2 : (runTestLoop (noTraceCfg coe ssOF R artDir tname) steps tor).attemptsMade =
          0 + (R + 1) := h.2.1
      rw [h2]
      omega
    · have h3 : (runTestLoop (noTraceCfg coe ssOF R artDir tname) steps tor).lastErr =
          if R + 1 = 0 then none else (runStepsGo coe (tor.stepO R) steps).2 := h.2.2.1
      rw [h3, if_neg (by omega : ¬ (R + 1 = 0))]
    · have h4 : (runTestLoop (noTraceCfg coe ssOF R artDir tname) steps tor).artifacts =
          [] ++ shotArtifacts (noTraceCfg coe ssOF R artDir tname) tor 0 (R + 1) := h.2.2.2
      rw [h4]
      simp

/-- C4, witness for the amended claim: Scenario D — `retries:0`,
`onFailureScreenshot:true`, one failing test named "Login": one attempt,
`ok=false`, exactly one artifact `art/Login_attempt1.png`. -/
theorem C4_witness :
    (runTestLoop (noTraceCfg false true 0 "art" "Login") [⟨"page_goto"⟩] allBoomTO).ok = false ∧
    (runTestLoop (noTraceCfg false true 0 "art" "Login") [⟨"page_goto"⟩] allBoomTO).attemptsMade = 1 ∧
    (runTestLoop (noTraceCfg false true 0 "art" "Login") [⟨"page_goto"⟩] allBoomTO).artifacts =
      ["art/Login_attempt1.png"] := by
  have hall : ∀ k, k ≤ 0 →
      attemptClean (noTraceCfg false true 0 "art" "Login") [⟨"page_goto"⟩] allBoomTO k = false := by
    intro k hk
    have hk0 : k = 0 := Nat.le_zero.mp hk
    subst hk0
    decide
  have h := (C4_amended_retry_budget false true 0 "art" "Login" [⟨"page_goto"⟩] allBoomTO).2 hall
  refine ⟨h.1, h.2.1, ?_⟩
  rw [h.2.2.2]
  decide

/-- C2, amended: teardown runs exactly once per `test_suite_run` call whenever
the run reaches it — in particular regardless of how many tests fail — but a
setup failure with `continueOnError=false` (or a throw while auto-acquiring
the browser) propagates immediately: teardown is then never attempted and the
auto-acquired browser is not released. Stated positively: when acquisition
and setup do not throw, the teardown log is exactly the step-runner log of
the teardown steps. -/
theorem C2_amended_teardown_once (input : SuiteInput) (held : Bool) (so : SuiteOracle)
    (hopen : so.openO = none)
    (hsetup : (runStepsGo input.continueOnError so.setupO input.setup).2 = none) :
    (modelSuiteRun input held so).teardownRes =
      (runStepsGo input.continueOnError so.teardownO input.teardown).1 := by
  have hseq : (if input.setup.isEmpty then (([] : List StepResult), (none : Option String))
      else runStepsGo input.continueOnError so.setupO input.setup) =
      runStepsGo input.continueOnError so.setupO input.setup := by
    by_cases h : input.setup.isEmpty
    · have h2 : input.setup = [] := List.isEmpty_iff.mp h
      rw [h2]
      simp [runStepsGo]
    · simp [h]
  have hteq : (if input.teardown.isEmpty then (([] : List StepResult), (none : Option String))
      else runStepsGo input.continueOnError so.teardownO input.teardown) =
      runStepsGo input.continueOnError so.teardownO input.teardown := by
    by_cases h : input.teardown.isEmpty
    · have h2 : input.teardown = [] := List.isEmpty_iff.mp h
      rw [h2]
      simp [runStepsGo]
    · simp [h]
  have hacq2 : (if (input.autoBrowser.getD true) && !held then so.openO else none) = none := by
    by_cases h : (input.autoBrowser.getD true) && !held
    · simp [h, hopen]
    · simp [h]
  simp only [modelSuiteRun, hseq, hteq, hacq2, hsetup]
  cases htd2 : (runStepsGo input.continueOnError so.teardownO input.teardown).2 with
  | none => rfl
  | some e => rfl

/-- C2, witness for the amended claim: with setup absent, the teardown step is
executed (once) even though the only test fails. -/
theorem C2_witness :
    (modelSuiteRun c2wIn false c2wSO).teardownRes = [⟨"browser_close", true, none⟩] := by
  have h := C2_amended_teardown_once c2wIn false c2wSO rfl rfl
  rw [h]
  rfl

/-- C7, amended: at the end of a `test_suite_run` call that reaches the
release step (acquisition, setup and teardown did not throw), `browser_open`
was invoked at acquisition iff `autoBrowser` (defaulted to true) holds and no
browser was held at entry, but `browser_close` is invoked iff `autoBrowser`
holds — whether or not the browser was auto-acquired by this call — the run
reports no error, and the outcome is entirely independent of the release
invocation's result (a release failure is swallowed). -/
theorem C7_amended_release (input : SuiteInput) (held : Bool) (so : SuiteOracle)
    (hopen : so.openO = none)
    (hsetup : (runStepsGo input.continueOnError so.setupO input.setup).2 = none)
    (hteardown : (runStepsGo input.continueOnError so.teardownO input.teardown).2 = none) :
    (modelSuiteRun input held so).acquired = ((input.autoBrowser.getD true) && !held) ∧
    (modelSuiteRun input held so).released = (input.autoBrowser.getD true) ∧
    (modelSuiteRun input held so).thrown = none ∧
    ∀ c, modelSuiteRun input held { so with closeO := c } = modelSuiteRun input held so := by
  have hseq : (if input.setup.isEmpty then (([] : List StepResult), (none : Option String))
      else runStepsGo input.continueOnError so.setupO input.setup) =
      runStepsGo input.continueOnError so.setupO input.setup := by
    by_cases h : input.setup.isEmpty
    · have h2 : input.setup = [] := List.isEmpty_iff.mp h
      rw [h2]
      simp [runStepsGo]
    · simp [h]
  have hteq : (if input.teardown.isEmpty then (([] : List StepResult), (none : Option String))
      else runStepsGo input.continueOnError so.teardownO input.teardown) =
      runStepsGo input.continueOnError so.teardownO input.teardown := by
    by_cases h : input.teardown.isEmpty
    · have h2 : input.teardown = [] := List.isEmpty_iff.mp h
      rw [h2]
      simp [runStepsGo]
    · simp [h]
  have hacq2 : (if (input.autoBrowser.getD true) && !held then so.openO else none) = none := by
    by_cases h : (input.autoBrowser.getD true) && !held
    · simp [h, hopen]
    · simp [h]
  refine ⟨?_, ?_, ?_, fun c => rfl⟩
  · simp only [modelSuiteRun, hseq, hteq, hacq2, hsetup, hteardown]
  · simp only [modelSuiteRun, hseq, hteq, hacq2, hsetup, hteardown]
  · simp only [modelSuiteRun, hseq, hteq, hacq2, hsetup, hteardown]

/-- C7, witness for the amended claim: the counterexample scenario through the
amended statement — browser already held, `autoBrowser` defaulted, release
still invoked and no error reported. -/
theorem C7_witness :
    (modelSuiteRun c7Input true c7Oracle).released = true ∧
    (modelSuiteRun c7Input true c7Oracle).thrown = none := by
  have h := C7_amended_release c7Input true c7Oracle rfl rfl rfl
  exact ⟨by simpa using h.2.1, h.2.2.1⟩

end Autotest
